import Mathlib

/-!
Shallow embedding of the Google Maps scraper pipeline
(`src/modules/maps_scraper/scraper.js` and the HTTP server's `runScraper`).

JavaScript strings are modelled as lists of characters (`JStr`); nullable
string values as `Option JStr` (`none` = JS `null`); object keys that may
never be assigned as an outer `Option`.  Browser state is modelled as an
explicit `PageState` record holding everything the extraction code reads
from the rendered page; fallible navigation is an `Option` field.
-/

namespace MapsScraper

/-- JavaScript strings, modelled as lists of characters. -/
abbrev JStr := List Char

/-- A JavaScript string expression that may be `null`. -/
abbrev JSVal := Option JStr

/-- Conversion from Lean string literals. -/
def str (s : String) : JStr := s.toList

/-- Truthiness of a nullable JS string (`null` and the empty string are falsy). -/
def jsTruthy : JSVal → Bool
  | some s => !s.isEmpty
  | none => false

/-- The JS `a || b` operator on nullable strings. -/
def jsOr (a b : JSVal) : JSVal := if jsTruthy a then a else b

/-- Characters treated as whitespace by JS (`\s`, `trim`); the common ones. -/
def jsWhitespace (c : Char) : Bool :=
  c = ' ' || c = '\t' || c = '\n' || c = '\r' ||
  c = Char.ofNat 11 || c = Char.ofNat 12 || c = Char.ofNat 0xA0

/-- The JS `String.prototype.trim`. -/
def jsTrim (s : JStr) : JStr :=
  ((s.dropWhile jsWhitespace).reverse.dropWhile jsWhitespace).reverse

/-- ASCII uppercase letter. -/
def isAsciiUpper (c : Char) : Bool := 'A' ≤ c && c ≤ 'Z'

/-- ASCII lowercase letter. -/
def isAsciiLower (c : Char) : Bool := 'a' ≤ c && c ≤ 'z'

/-- JS regex word character (for `\b` boundaries). -/
def isWordChar (c : Char) : Bool :=
  isAsciiUpper c || isAsciiLower c || c.isDigit || c = '_'

/-- The JS `String.prototype.includes`: `hasSub needle hay` decides whether
`needle` occurs contiguously inside `hay`. -/
def hasSub (needle : JStr) : JStr → Bool
  | [] => needle.isEmpty
  | c :: rest => needle.isPrefixOf (c :: rest) || hasSub needle rest

/-- The JS `String.prototype.endsWith` on character lists. -/
def hasSuffix (tail hay : JStr) : Bool := tail.reverse.isPrefixOf hay.reverse

/-- The scraper's result cap (`const MAX_RESULTS = 10`). -/
def MAX_RESULTS : Nat := 10

/-- The scroll loop of the Listing Resolver (`while (true) { ... }`,
`scraper.js` lines 34-53 and `runScraper` lines 82-95), indexed by fuel.
`feed i` is the number of rendered `div[role="article"]` elements observed
at iteration `i`.  One iteration: break if the count reached
`MAX_RESULTS`; otherwise scroll and wait; then `continue` if the count is
strictly between `0` and `MAX_RESULTS`, else break.  Returns `some len` if
the loop exits within `fuel` iterations, `none` otherwise. -/
def scrollLoopFuel (fuel : Nat) (feed : Nat → Nat) (i : Nat) : Option Nat :=
  match fuel with
  | 0 => none
  | f + 1 =>
    let len := feed i
    if MAX_RESULTS ≤ len then some len
    else if 0 < len ∧ len < MAX_RESULTS then scrollLoopFuel f feed (i + 1)
    else some len

/-! ## Review-category chips -/

/-- Characters matchable by `.` in a JS regex without the `s` flag. -/
def dotChar (c : Char) : Bool := c != '\n' && c != '\r'

/-- Tail of the chip regex after `mentioned in `: parse `(\d+) reviews?$`,
returning the digit group. -/
def matchReviewsSuffix (cs : JStr) : Option JStr :=
  let ds := cs.takeWhile Char.isDigit
  let rest := cs.drop ds.length
  if ds.isEmpty then none
  else if rest = str (" review") ∨ rest = str (" reviews") then some ds
  else none

/-- Part of the chip regex after the comma: `\s*mentioned in (\d+) reviews?$`. -/
def matchAfterComma (cs : JStr) : Option JStr :=
  let cs2 := cs.dropWhile jsWhitespace
  if (str ("mentioned in ")).isPrefixOf cs2 then
    matchReviewsSuffix (cs2.drop (str ("mentioned in ")).length)
  else none

/-- Matching of `/^(.+?),\s*mentioned in (\d+) reviews?$/` (scraper.js line
301): scan left to right for the first comma position at which the rest of
the pattern succeeds (the non-greedy `(.+?)` takes the shortest subject);
`.` cannot cross a line break.  Returns the two capture groups. -/
def findMentionSplit : JStr → JStr → Option (JStr × JStr)
  | _, [] => none
  | subjRev, c :: rest =>
    if c = ',' then
      if subjRev.isEmpty then findMentionSplit (c :: subjRev) rest
      else
        match matchAfterComma rest with
        | some ds => some (subjRev.reverse, ds)
        | none => findMentionSplit (c :: subjRev) rest
    else if dotChar c then findMentionSplit (c :: subjRev) rest
    else none

/-- Full-string match of the chip pattern. -/
def matchMentionFull (l : JStr) : Option (JStr × JStr) := findMentionSplit [] l

/-- A `button.e2moi` category chip as read by the code: its `aria-label`
attribute and its text content, both nullable. -/
structure Chip where
  ariaLabel : Option JStr
  textC : Option JStr
deriving DecidableEq

/-- The effective label of a chip (`ariaLabel || text`). -/
def chipLabel (c : Chip) : JSVal := jsOr c.ariaLabel c.textC

/-- Processing of one category chip (scraper.js lines 290-311): keep the
label only if it is truthy and contains `mentioned in`; reformat to
`subject (count)` when the full pattern matches, otherwise keep the
trimmed original label. -/
def processChip (c : Chip) : Option JStr :=
  match chipLabel c with
  | none => none
  | some l =>
    if !l.isEmpty && hasSub (str ("mentioned in")) l then
      match matchMentionFull l with
      | some (subj, ds) => some (subj ++ str (" (") ++ ds ++ str (")"))
      | none => some (jsTrim l)
    else none

/-- The category-chip loop over all chips. -/
def processChips (cs : List Chip) : List JStr := cs.filterMap processChip

/-- The claim-side pattern `^.+ \(\d+\)$` (with `.` not matching a line
break), decided by reading the candidate entry from the right. -/
def matchesCatShape (l : JStr) : Bool :=
  match l.reverse with
  | ')' :: rest =>
    let ds := rest.takeWhile Char.isDigit
    let rest2 := rest.drop ds.length
    (!ds.isEmpty) &&
      (match rest2 with
       | '(' :: ' ' :: subjRev => (!subjRev.isEmpty) && subjRev.all dotChar
       | _ => false)
  | _ => false

/-! ## Review harvesting -/

/-- A DOM element as read by the extraction code: its `aria-label`
attribute and its text content, both nullable. -/
structure DomElem where
  ariaLabel : Option JStr
  textC : Option JStr
deriving DecidableEq

/-- One `div[data-review-id]` element together with the sub-elements each
field-resolution chain queries (scraper.js lines 235-268); `none` means the
selector found nothing. -/
structure ReviewElem where
  nameDiv : Option DomElem
  contribBtn : Option DomElem
  contribLink : Option DomElem
  starsSpan : Option DomElem
  textSpan : Option DomElem
  textDiv : Option DomElem
  timeSpan : Option DomElem
deriving DecidableEq

/-- A harvested review object.  The outer `Option` is `none` when the key
was never assigned (the resolution chain found no element); the inner
`Option` is `none` when the key was assigned the JS value `null`. -/
structure ReviewRecord where
  reviewer : Option JSVal
  rating : Option JSVal
  textR : Option JSVal
  timeR : Option JSVal
deriving DecidableEq

/-- Truthiness of a possibly-unassigned review field (unassigned, `null`
and the empty string are all falsy). -/
def truthyField : Option JSVal → Bool
  | some (some s) => !s.isEmpty
  | _ => false

/-- Construction of one review object (scraper.js lines 236-268): each
field is assigned only when its resolution chain found an element. -/
def buildReview (e : ReviewElem) : ReviewRecord :=
  let reviewerEl := (e.nameDiv <|> e.contribBtn) <|> e.contribLink
  { reviewer := reviewerEl.map fun el => jsOr el.ariaLabel el.textC
    rating := e.starsSpan.map fun el => el.ariaLabel
    textR := match e.textSpan with
      | some el => some el.textC
      | none => e.textDiv.map fun el => el.textC
    timeR := e.timeSpan.map fun el => el.textC }

/-- The retention test `review.reviewer || review.text || review.rating`. -/
def retainedB (r : ReviewRecord) : Bool :=
  truthyField r.reviewer || truthyField r.textR || truthyField r.rating

/-- The review extraction loop body (scraper.js lines 235-277): push a
review only if the retention test passes, and break once ten reviews are
accumulated. -/
def harvestGo : List ReviewElem → List ReviewRecord → List ReviewRecord
  | [], acc => acc
  | e :: rest, acc =>
    let r := buildReview e
    let acc2 := if retainedB r then acc ++ [r] else acc
    if 10 ≤ acc2.length then acc2 else harvestGo rest acc2

/-- The review extraction loop, started on an empty accumulator. -/
def harvestReviews (els : List ReviewElem) : List ReviewRecord := harvestGo els []

/-! ## Mentioned names -/

/-- Attempted match of `/\b[A-Z][a-z]{2,}\s+[A-Z][a-z]{2,}\b/` at the
current position (`prev` is the character before it, for the leading word
boundary).  On success, returns the matched text and the remainder. -/
def tryNameMatch (prev : Option Char) : JStr → Option (JStr × JStr)
  | [] => none
  | c :: rest =>
    if !prev.all (fun p => !isWordChar p) then none
    else if !isAsciiUpper c then none
    else
      let l1 := rest.takeWhile isAsciiLower
      if l1.length < 2 then none
      else
        let r1 := rest.drop l1.length
        let s1 := r1.takeWhile jsWhitespace
        if s1.isEmpty then none
        else
          match r1.drop s1.length with
          | [] => none
          | c2 :: rest2 =>
            if !isAsciiUpper c2 then none
            else
              let l2 := rest2.takeWhile isAsciiLower
              if l2.length < 2 then none
              else
                let r3 := rest2.drop l2.length
                if r3.head?.all (fun x => !isWordChar x) then
                  some (c :: l1 ++ s1 ++ c2 :: l2, r3)
                else none

/-- Global scan for the name pattern (the JS `text.match(namePattern)` with
the `g` flag): try a match at each position, continuing after each match;
`fuel` bounds the scan (one unit per consumed character). -/
def scanNames : Nat → Option Char → JStr → List JStr
  | 0, _, _ => []
  | _ + 1, _, [] => []
  | fuel + 1, prev, c :: rest =>
    match tryNameMatch prev (c :: rest) with
    | some (m, rem) => m :: scanNames fuel (some (m.getLastD 'a')) rem
    | none => scanNames fuel (some c) rest

/-- All matches of the name pattern in a review text. -/
def namesOf (t : JStr) : List JStr := scanNames t.length none t

/-- The static exclusion set (`excludeWords`, scraper.js lines 318-337). -/
def excludeWords : List JStr :=
  [str ("North Beach"), str ("San Francisco"), str ("New York"), str ("Los Angeles"),
   str ("Fort Worth"), str ("Dallas"),
   str ("South Bay"), str ("East Bay"), str ("West Coast"), str ("East Coast"),
   str ("Google Maps"), str ("Yelp Reviews"), str ("Facebook Page"), str ("Instagram Account"),
   str ("The Godfather"), str ("The Beatles"), str ("The Rolling"),
   str ("Monday Morning"), str ("Tuesday Night"), str ("Wednesday Evening"),
   str ("Thank You"), str ("Best Regards"), str ("Kind Regards"), str ("Very Good"),
   str ("Highly Recommend"),
   str ("Perfect Balance"), str ("Tax Services"), str ("The Black"), str ("Bookkeeping Services"),
   str ("Tax Service"), str ("Bookkeeping Service"), str ("Accounting Services"),
   str ("Accounting Service"),
   str ("Financial Services"), str ("Financial Service"), str ("Business Services"),
   str ("Business Service"),
   str ("Tax Preparation"), str ("Tax Consultant"), str ("Tax Consultants"), str ("Tax Return"),
   str ("Income Tax"), str ("Tax Season"), str ("Tax Returns"), str ("Tax Deductions"),
   str ("Balance Sheet"), str ("Profit Loss"), str ("Cash Flow"), str ("General Ledger")]

/-- Inner body of the mentioned-names loop (scraper.js lines 344-352): the
trimmed match is appended unless it is in the exclusion set, contains a
line break, or was already accepted. -/
def nameInsertStep (acc2 : List JStr) (nm : JStr) : List JStr :=
  let tn := jsTrim nm
  if !excludeWords.contains tn && !tn.contains '\n' && !acc2.contains tn
  then acc2 ++ [tn] else acc2

/-- The string value of a possibly-unassigned, possibly-null field (the
empty string when there is none; only read behind a truthiness test). -/
def fieldStr : Option JSVal → JStr
  | some (some s) => s
  | _ => []

/-- Outer body of the mentioned-names loop (scraper.js lines 340-355): a
review contributes only when its text is truthy (`if (review.text)`). -/
def mentionedStep (acc : List JStr) (r : ReviewRecord) : List JStr :=
  if truthyField r.textR then (namesOf (fieldStr r.textR)).foldl nameInsertStep acc
  else acc

/-- The mentioned-names loop over all retained reviews. -/
def collectMentionedNames (revs : List ReviewRecord) : List JStr :=
  revs.foldl mentionedStep []

/-- First-occurrence deduplication step (claim-side characterisation, also
the semantics of iterating a JS `Set`). -/
def dedupInsert (acc : List JStr) (x : JStr) : List JStr :=
  if acc.contains x then acc else acc ++ [x]

/-- First-occurrence deduplication of a list of strings. -/
def firstSeenDedup (l : List JStr) : List JStr := l.foldl dedupInsert []

/-- The per-name filter of the mentioned-names loop, without the dedup. -/
def validName (tn : JStr) : Bool := !excludeWords.contains tn && !tn.contains '\n'

/-- The names one review contributes before deduplication. -/
def reviewNames (r : ReviewRecord) : List JStr :=
  if truthyField r.textR then ((namesOf (fieldStr r.textR)).map jsTrim).filter validName
  else []

/-- The whole filtered name stream of a listing, in harvest order. -/
def nameStream (revs : List ReviewRecord) : List JStr :=
  (revs.map reviewNames).flatten

/-! ## Email harvesting -/

/-- The character class `[a-zA-Z0-9._-]` of the email regex. -/
def emailChar (c : Char) : Bool :=
  isAsciiUpper c || isAsciiLower c || c.isDigit || c = '.' || c = '_' || c = '-'

/-- Whether the part after `@` admits the `\.[a-zA-Z0-9._-]+` split: a dot
at an interior position (at least one character on each side). -/
def hasInteriorDot (run : JStr) : Bool := ((run.drop 1).dropLast).contains '.'

/-- Attempted match of `/[a-zA-Z0-9._-]+@[a-zA-Z0-9._-]+\.[a-zA-Z0-9._-]+/`
at the current position.  The greedy runs leave no real backtracking: the
match, when it exists, is the maximal class run, the `@`, and the whole
maximal class run after it (which must contain an interior dot). -/
def tryEmailMatch (cs : JStr) : Option (JStr × JStr) :=
  let m1 := cs.takeWhile emailChar
  if m1.isEmpty then none
  else
    match cs.drop m1.length with
    | a :: r =>
      if a = '@' then
        let run := r.takeWhile emailChar
        if hasInteriorDot run then some (m1 ++ '@' :: run, r.drop run.length)
        else none
      else none
    | [] => none

/-- Global scan for the email pattern (`content.match(emailRegex)`);
`fuel` bounds the scan (one unit per consumed character). -/
def scanEmails : Nat → JStr → List JStr
  | 0, _ => []
  | _ + 1, [] => []
  | fuel + 1, c :: rest =>
    match tryEmailMatch (c :: rest) with
    | some (m, rem) => m :: scanEmails fuel rem
    | none => scanEmails fuel rest

/-- All email-regex matches of a page content. -/
def emailsOf (content : JStr) : List JStr := scanEmails content.length content

/-- Lowercasing as used on matched tokens (ASCII, which covers the regex's
character class). -/
def jsToLower (s : JStr) : JStr := s.map Char.toLower

/-- The `/\.(png|jpg|jpeg|gif|css|js)$/` junk-extension test. -/
def badExt (l : JStr) : Bool :=
  [str (".png"), str (".jpg"), str (".jpeg"), str (".gif"), str (".css"), str (".js")].any
    fun e => hasSuffix e l

/-- The junk filter applied to each deduplicated email token
(scraper.js lines 372-380). -/
def junkFree (e : JStr) : Bool :=
  let lower := jsToLower e
  !badExt lower && !hasSub (str ("sentry")) lower && !hasSub (str ("wix")) lower &&
  !hasSub (str ("node_modules")) lower && !hasSub (str ("example.com")) lower &&
  !hasSub (str ("domain.com")) lower

/-- The deduplicated, filtered email tokens of a fetched site content
(`[...new Set(emails)].filter(...)`). -/
def emailTokens (content : JStr) : List JStr :=
  (firstSeenDedup (emailsOf content)).filter junkFree

/-- The final `email` field value computed from a fetched site content
(`uniqueEmails.join(', ')`; the empty string when there is no match). -/
def emailField (content : JStr) : JStr :=
  List.intercalate (str (", ")) (emailTokens content)

/-- Claim-side shape of an email token: a nonempty class run, one `@`, and
a class run containing an interior dot — the anchored form of the email
regex. -/
def emailShapedB (t : JStr) : Bool :=
  (!(t.takeWhile emailChar).isEmpty) &&
  ((t.drop (t.takeWhile emailChar).length).head? == some '@') &&
  ((t.drop (t.takeWhile emailChar).length).drop 1).all emailChar &&
  hasInteriorDot ((t.drop (t.takeWhile emailChar).length).drop 1)

/-! ## Per-listing page state and extraction -/

/-- A `button[data-item-id]` element: text content and `aria-label` are
nullable, the `data-item-id` attribute is guaranteed by the selector. -/
structure BtnInfo where
  textC : Option JStr
  ariaLabel : Option JStr
  itemId : JStr
deriving DecidableEq

/-- Everything the per-listing extraction reads from the rendered listing
page, plus the outcome of the Email Harvester's secondary navigation.
`none` components model selectors that find nothing (or, for `h1` and
`siteContent`, operations that throw). -/
structure PageState where
  h1 : Option JStr
  itemButtons : List BtnInfo
  authorityHref : Option JSVal
  ratingImgLabel : Option JStr
  textRatingText : Option JStr
  reviewCountText : Option JStr
  reviewCountFallback : Option JStr
  aboutTab : Bool
  aboutContent : JStr
  reviewsTab : Bool
  reviewElems : List ReviewElem
  chips : List Chip
  siteContent : Option JStr
deriving DecidableEq

/-- The record built for one listing.  String fields are nullable JS values
initialised to the empty string; `attributes` is `none` when the key was
never assigned (the CLI assigns it only when the About tab is present, the
server version never does). -/
structure ListingRecord where
  url : JStr
  name : JSVal
  address : JSVal
  phone : JSVal
  website : JSVal
  rating : JSVal
  reviewCount : JSVal
  reviews : List ReviewRecord
  reviewCategories : List JStr
  mentionedNames : List JStr
  attributes : Option (List JStr)
  email : JSVal
deriving DecidableEq

/-- The `button[data-item-id]` loop (scraper.js lines 128-137): route each
button's label to address, phone or website according to its id. -/
def applyButtons (bs : List BtnInfo) (a p w : JSVal) : JSVal × JSVal × JSVal :=
  bs.foldl
    (fun acc b =>
      let a := if hasSub (str ("address")) b.itemId then jsOr b.ariaLabel b.textC else acc.1
      let p := if hasSub (str ("phone")) b.itemId then jsOr b.ariaLabel b.textC else acc.2.1
      let w := if hasSub (str ("authority")) b.itemId then b.textC else acc.2.2
      (a, p, w))
    (a, p, w)

/-- The reviews / categories / names block shared verbatim by both call
sites.  When the reviews tab exists but no review element ever appears,
`waitForSelector` throws and the surrounding catch leaves all three
outputs at their defaults. -/
def reviewsBlock (ps : PageState) : List ReviewRecord × List JStr × List JStr :=
  if ps.reviewsTab ∧ ps.reviewElems.isEmpty then ([], [], [])
  else
    let revs := if ps.reviewsTab then harvestReviews ps.reviewElems else []
    let cats := processChips ps.chips
    let names := collectMentionedNames revs
    (revs, cats, names)

/-- The About-tab attribute scan (scraper.js lines 186-195): membership
tests of four literal phrases in the rendered page content, in push
order. -/
def aboutAttrs (content : JStr) : List JStr :=
  (if hasSub (str ("Identified as women-owned")) content then [str ("Women-owned")] else []) ++
  (if hasSub (str ("Identified as veteran-owned")) content then [str ("Veteran-owned")] else []) ++
  (if hasSub (str ("Identified as Black-owned")) content then [str ("Black-owned")] else []) ++
  (if hasSub (str ("Identified as Latino-owned")) content then [str ("Latino-owned")] else [])

/-- The extraction steps common to the CLI scraper and `runScraper`: basic
fields, rating and review count with their fallbacks, and the shared
reviews block.  `attributes` is left unassigned and `email` at its
initial empty string. -/
def extractCommon (url : JStr) (ps : PageState) : ListingRecord :=
  let nameV : JSVal := match ps.h1 with
    | some t => some t
    | none => some []
  let apw := applyButtons ps.itemButtons (some []) (some []) (some [])
  let w : JSVal := match ps.authorityHref with
    | some href => href
    | none => apw.2.2
  let ratingV : JSVal := match ps.ratingImgLabel with
    | some aria => some (aria.takeWhile (· ≠ ' '))
    | none => match ps.textRatingText with
      | some t => some t
      | none => some []
  let rcV : JSVal := match ps.reviewCountText with
    | some t => some (t.filter Char.isDigit)
    | none => match ps.reviewCountFallback with
      | some t => some (t.filter Char.isDigit)
      | none => some []
  let rcn := reviewsBlock ps
  { url := url, name := nameV, address := apw.1, phone := apw.2.1, website := w,
    rating := ratingV, reviewCount := rcV,
    reviews := rcn.1, reviewCategories := rcn.2.1, mentionedNames := rcn.2.2,
    attributes := none, email := some [] }

/-- Outcome of one Email Harvester step: the resulting `email` value,
whether a secondary page was opened, whether it was closed before the step
finished, and whether an exception escapes the step. -/
structure EmailStepResult where
  email : JSVal
  opened : Bool
  closed : Bool
  exc : Bool
deriving DecidableEq

/-- The CLI email step (scraper.js lines 362-389).  On navigation failure
the catch block references the `const page2` that is scoped to the `try`
block, so it raises a `ReferenceError`: the page is not closed and the
exception escapes the step. -/
def emailStepCLI (website : JSVal) (site : Option JStr) : EmailStepResult :=
  if jsTruthy website then
    match site with
    | some content =>
      { email := some (emailField content), opened := true, closed := true, exc := false }
    | none =>
      { email := some [], opened := true, closed := false, exc := true }
  else { email := some [], opened := false, closed := false, exc := false }

/-- The server email step (`runScraper` lines 295-319).  On navigation
failure the catch block only logs: the exception is swallowed but the page
is never closed. -/
def emailStepServer (website : JSVal) (site : Option JStr) : EmailStepResult :=
  if jsTruthy website then
    match site with
    | some content =>
      { email := some (emailField content), opened := true, closed := true, exc := false }
    | none =>
      { email := some [], opened := true, closed := false, exc := false }
  else { email := some [], opened := false, closed := false, exc := false }

/-- Fate of one listing in the per-listing loop. -/
inductive ListingOutcome where
  | retained (r : ListingRecord)
  | dropped
deriving DecidableEq

/-- The CLI per-listing record before the email step: the common
extraction plus the About-tab attribute scan (scraper.js lines 177-201). -/
def cliRecordCore (url : JStr) (ps : PageState) : ListingRecord :=
  let r := extractCommon url ps
  { r with attributes := if ps.aboutTab then some (aboutAttrs ps.aboutContent) else none }

/-- The whole CLI per-listing pass (scraper.js lines 101-397): if the email
step raises, the exception reaches the per-listing catch and
`resultsData.push(data)` never runs — the listing is dropped. -/
def processListingCLI (url : JStr) (ps : PageState) : ListingOutcome :=
  let r := cliRecordCore url ps
  let es := emailStepCLI r.website ps.siteContent
  if es.exc then .dropped else .retained { r with email := es.email }

/-- The finished `runScraper` per-listing record (no attributes scan, email
failures swallowed). -/
def serverRecordFull (url : JStr) (ps : PageState) : ListingRecord :=
  let r := extractCommon url ps
  let es := emailStepServer r.website ps.siteContent
  { r with email := es.email }

/-- The whole `runScraper` per-listing pass (lines 112-326): every listing
is pushed. -/
def processListingServer (url : JStr) (ps : PageState) : ListingOutcome :=
  .retained (serverRecordFull url ps)

/-! ## Concrete page states used as verification inputs -/

/-- A listing page on which every selector finds nothing. -/
def psBlank : PageState :=
  { h1 := none, itemButtons := [], authorityHref := none, ratingImgLabel := none,
    textRatingText := none, reviewCountText := none, reviewCountFallback := none,
    aboutTab := false, aboutContent := [], reviewsTab := false, reviewElems := [],
    chips := [], siteContent := none }

/-- A page whose single chip carries a well-formed mention label. -/
def psChipGood : PageState :=
  { psBlank with chips := [⟨some (str ("quality, mentioned in 11 reviews")), none⟩] }

/-- A page whose single chip contains the phrase `mentioned in` without the
full count pattern. -/
def psChipBad : PageState :=
  { psBlank with chips := [⟨some (str ("food mentioned in many reviews")), none⟩] }

/-- A page with a resolved website whose secondary navigation fails. -/
def psSiteFail : PageState :=
  { psBlank with authorityHref := some (some (str ("http://biz.example"))) }

/-- A page whose About tab content carries the women-owned phrase. -/
def psAboutWomen : PageState :=
  { psBlank with
    aboutTab := true
    aboutContent := str ("About this place. Identified as women-owned business.") }

/-- A page with a resolved website whose fetched content holds a
placeholder-domain address and a real one. -/
def psSiteOk : PageState :=
  { psBlank with
    authorityHref := some (some (str ("http://biz.example")))
    siteContent := some (str ("write to contact@example.com or info@realbiz.com")) }

/-- The record the CLI pass retains on `psSiteOk`. -/
def recSiteOk : ListingRecord :=
  { cliRecordCore (str ("u")) psSiteOk with email := some (str ("info@realbiz.com")) }

/-- A review element on which every field selector fails. -/
def revElemEmpty : ReviewElem :=
  { nameDiv := none, contribBtn := none, contribLink := none, starsSpan := none,
    textSpan := none, textDiv := none, timeSpan := none }

/-- Claim-side well-formedness of an `email` value: a comma-space join of
distinct tokens, each email-shaped and passing the junk filter. -/
def emailWF (v : JSVal) : Prop :=
  ∃ toks : List JStr, v = some (List.intercalate (str (", ")) toks) ∧ toks.Nodup ∧
    toks.all (fun t => emailShapedB t && junkFree t) = true

/-! ## Helper lemmas -/

theorem contains_iff {a : JStr} {l : List JStr} : l.contains a = true ↔ a ∈ l := by
  simp [List.contains, List.elem_iff]

theorem takeWhile_all_append (p : Char → Bool) (l1 : JStr) (x : Char) (l2 : JStr)
    (h1 : l1.all p = true) (hx : p x = false) :
    (l1 ++ x :: l2).takeWhile p = l1 := by
  induction l1 with
  | nil => simp [List.takeWhile_cons, hx]
  | cons a as ih =>
    simp only [List.all_cons, Bool.and_eq_true] at h1
    simp [List.takeWhile_cons, h1.1, ih h1.2]

theorem foldl_dedupInsert_nodup : ∀ (l acc : List JStr), acc.Nodup →
    (l.foldl dedupInsert acc).Nodup := by
  intro l
  induction l with
  | nil => intro acc h; exact h
  | cons x rest ih =>
    intro acc h
    simp only [List.foldl_cons]
    apply ih
    unfold dedupInsert
    by_cases hc : acc.contains x = true
    · rw [if_pos hc]; exact h
    · rw [if_neg hc]
      rw [List.nodup_append]
      refine ⟨h, List.nodup_singleton x, ?_⟩
      rw [List.disjoint_singleton]
      intro hm
      exact hc (contains_iff.mpr hm)

theorem mem_foldl_dedupInsert : ∀ (l acc : List JStr) (x : JStr),
    x ∈ l.foldl dedupInsert acc → x ∈ acc ∨ x ∈ l := by
  intro l
  induction l with
  | nil => intro acc x h; exact Or.inl h
  | cons y rest ih =>
    intro acc x h
    simp only [List.foldl_cons] at h
    rcases ih _ x h with h2 | h2
    · unfold dedupInsert at h2
      by_cases hc : acc.contains y = true
      · rw [if_pos hc] at h2; exact Or.inl h2
      · rw [if_neg hc] at h2
        rcases List.mem_append.mp h2 with h3 | h3
        · exact Or.inl h3
        · simp only [List.mem_singleton] at h3
          exact Or.inr (h3 ▸ List.mem_cons_self y rest)
    · exact Or.inr (List.mem_cons_of_mem y h2)

theorem firstSeenDedup_nodup (l : List JStr) : (firstSeenDedup l).Nodup :=
  foldl_dedupInsert_nodup l [] List.nodup_nil

theorem mem_firstSeenDedup {l : List JStr} {x : JStr} (h : x ∈ firstSeenDedup l) :
    x ∈ l := by
  rcases mem_foldl_dedupInsert l [] x h with h2 | h2
  · cases h2
  · exact h2

/-! ## C1 -/

/-- C1: the claim states that for a feed that stops growing at
`K < MAX_RESULTS` rendered listings the scroll loop terminates after a
bounded number of iterations via stall detection.  The code has no stall
detection (it is commented out): with a feed stuck at one rendered
listing, the loop takes the `continue` branch on every iteration and
never exits, whatever the iteration bound. -/
theorem c1_scroll_loop_never_exits :
    ∀ (fuel i : Nat), scrollLoopFuel fuel (fun _ => 1) i = none := by
  intro fuel
  induction fuel with
  | zero => intro i; rfl
  | succ f ih =>
    intro i
    have h := ih (i + 1)
    simp [scrollLoopFuel, MAX_RESULTS, h]

/-! ## C2 -/

theorem matchReviewsSuffix_sound {cs ds : JStr} (h : matchReviewsSuffix cs = some ds) :
    ds ≠ [] ∧ ds.all Char.isDigit = true := by
  unfold matchReviewsSuffix at h
  by_cases h1 : (cs.takeWhile Char.isDigit).isEmpty = true
  · rw [if_pos h1] at h; cases h
  · rw [if_neg h1] at h
    by_cases h2 : cs.drop (cs.takeWhile Char.isDigit).length = str (" review") ∨
        cs.drop (cs.takeWhile Char.isDigit).length = str (" reviews")
    · rw [if_pos h2] at h
      cases h
      exact ⟨by simpa [List.isEmpty_iff] using h1, List.all_takeWhile⟩
    · rw [if_neg h2] at h; cases h

theorem matchAfterComma_sound {cs ds : JStr} (h : matchAfterComma cs = some ds) :
    ds ≠ [] ∧ ds.all Char.isDigit = true := by
  unfold matchAfterComma at h
  by_cases h1 : (str ("mentioned in ")).isPrefixOf (cs.dropWhile jsWhitespace) = true
  · rw [if_pos h1] at h; exact matchReviewsSuffix_sound h
  · rw [if_neg h1] at h; cases h

theorem findMentionSplit_sound :
    ∀ (cs subjRev subj ds : JStr), findMentionSplit subjRev cs = some (subj, ds) →
    subjRev.all dotChar = true →
    subj ≠ [] ∧ subj.all dotChar = true ∧ ds ≠ [] ∧ ds.all Char.isDigit = true := by
  intro cs
  induction cs with
  | nil => intro subjRev subj ds h; cases h
  | cons c rest ih =>
    intro subjRev subj ds h hall
    unfold findMentionSplit at h
    by_cases hc : c = ','
    · rw [if_pos hc] at h
      have hdot : dotChar c = true := by subst hc; rfl
      by_cases he : subjRev.isEmpty = true
      · rw [if_pos he] at h
        exact ih _ _ _ h (by simp [List.all_cons, hdot, hall])
      · rw [if_neg he] at h
        cases hm : matchAfterComma rest with
        | some ds2 =>
          rw [hm] at h
          cases h
          refine ⟨?_, ?_, (matchAfterComma_sound hm).1, (matchAfterComma_sound hm).2⟩
          · rw [Ne, List.reverse_eq_nil_iff]
            simpa [List.isEmpty_iff] using he
          · rw [List.all_reverse]; exact hall
        | none =>
          rw [hm] at h
          exact ih _ _ _ h (by simp [List.all_cons, hdot, hall])
    · rw [if_neg hc] at h
      by_cases hd : dotChar c = true
      · rw [if_pos hd] at h
        exact ih _ _ _ h (by simp [List.all_cons, hd, hall])
      · rw [if_neg hd] at h; cases h

theorem matchesCatShape_build {subj ds : JStr}
    (h1 : subj ≠ []) (h2 : subj.all dotChar = true)
    (h3 : ds ≠ []) (h4 : ds.all Char.isDigit = true) :
    matchesCatShape (subj ++ str (" (") ++ ds ++ str (")")) = true := by
  have hrev : (subj ++ str (" (") ++ ds ++ str (")")).reverse
      = ')' :: (ds.reverse ++ '(' :: ' ' :: subj.reverse) := by
    simp [str, List.reverse_append]
  have ht : (ds.reverse ++ '(' :: ' ' :: subj.reverse).takeWhile Char.isDigit
      = ds.reverse :=
    takeWhile_all_append _ _ _ _ (by rw [List.all_reverse]; exact h4) (by decide)
  have hd : (ds.reverse ++ '(' :: ' ' :: subj.reverse).drop ds.reverse.length
      = '(' :: ' ' :: subj.reverse := List.drop_left _ _
  unfold matchesCatShape
  rw [hrev]
  simp only [ht, hd]
  simp [List.isEmpty_iff, List.reverse_eq_nil_iff, h1, h3, List.all_reverse, h2]

theorem processChip_sound {c : Chip} {e : JStr} (h : processChip c = some e) :
    ∃ l, chipLabel c = some l ∧ l.isEmpty = false ∧
      hasSub (str ("mentioned in")) l = true ∧
      (matchesCatShape e = true ∨ e = jsTrim l) := by
  unfold processChip at h
  split at h
  · cases h
  next l hl =>
    split at h
    next hcond =>
      simp only [Bool.and_eq_true, Bool.not_eq_true'] at hcond
      refine ⟨l, hl, hcond.1, hcond.2, ?_⟩
      split at h
      next subj ds hm =>
        cases h
        obtain ⟨hs1, hs2, hs3, hs4⟩ :=
          findMentionSplit_sound l [] subj ds hm (by rfl)
        exact Or.inl (matchesCatShape_build hs1 hs2 hs3 hs4)
      next hm =>
        cases h
        exact Or.inr rfl
    next hcond => cases h

theorem mem_reviewsBlock_cats {ps : PageState} {e : JStr}
    (h : e ∈ (reviewsBlock ps).2.1) : ∃ c ∈ ps.chips, processChip c = some e := by
  unfold reviewsBlock at h
  by_cases hb : ps.reviewsTab = true ∧ ps.reviewElems.isEmpty = true
  · rw [if_pos hb] at h; cases h
  · rw [if_neg hb] at h
    exact List.mem_filterMap.mp h

/-- C2 (amended): every entry of `reviewCategories` comes from a chip
whose effective label is truthy and contains the phrase `mentioned in`;
the entry matches the claimed pattern only when the label matches the full
`subject, mentioned in N review(s)` pattern, and otherwise it is the
trimmed original label, kept verbatim rather than discarded. -/
theorem c2_categories_amended :
    ∀ (url : JStr) (ps : PageState) (e : JStr),
    e ∈ (serverRecordFull url ps).reviewCategories →
    ∃ c ∈ ps.chips, ∃ l, chipLabel c = some l ∧ l.isEmpty = false ∧
      hasSub (str ("mentioned in")) l = true ∧
      (matchesCatShape e = true ∨ e = jsTrim l) := by
  intro url ps e h
  have h2 : e ∈ (reviewsBlock ps).2.1 := h
  obtain ⟨c, hc, hp⟩ := mem_reviewsBlock_cats h2
  exact ⟨c, hc, processChip_sound hp⟩

/-- C2 witness: the amended theorem applied to a concrete well-formed chip
label. -/
theorem c2_categories_amended_witness :
    ∃ c ∈ psChipGood.chips, ∃ l, chipLabel c = some l ∧ l.isEmpty = false ∧
      hasSub (str ("mentioned in")) l = true ∧
      (matchesCatShape (str ("quality (11)")) = true ∨
        str ("quality (11)") = jsTrim l) :=
  c2_categories_amended [] psChipGood (str ("quality (11)")) (by decide)

/-- C2 counterexample: a chip label containing `mentioned in` but not the
full count pattern reaches `reviewCategories` as its raw trimmed text,
which does not match the claimed pattern. -/
theorem c2_counterexample :
    (serverRecordFull [] psChipBad).reviewCategories
      = [str ("food mentioned in many reviews")] ∧
    matchesCatShape (str ("food mentioned in many reviews")) = false :=
  ⟨by decide, by decide⟩

/-! ## C3 -/

/-- C3: the claim states the secondary page is closed before the email
step returns on every exit path.  On a failed navigation the CLI catch
block references `page2` outside its scope, so the page stays open and a
`ReferenceError` escapes; the server catch only logs, also leaving the
page open.  Both violate the claimed hard cleanup contract. -/
theorem c3_page2_not_closed_on_failure :
    (emailStepCLI (some (str ("http://biz.example"))) none).opened = true ∧
    (emailStepCLI (some (str ("http://biz.example"))) none).closed = false ∧
    (emailStepCLI (some (str ("http://biz.example"))) none).exc = true ∧
    (emailStepServer (some (str ("http://biz.example"))) none).opened = true ∧
    (emailStepServer (some (str ("http://biz.example"))) none).closed = false := by
  decide

/-! ## C4 -/

/-- C4: the claim states an email-step failure degrades `email` to the
empty string and never drops the listing.  In the CLI pass the scoping
error in the catch block raises past the email step, so the per-listing
catch is reached before `resultsData.push(data)`: the listing with a
resolved website and a failing site navigation is dropped.  The server
pass keeps it with an empty email, as the claim describes. -/
theorem c4_email_failure_drops_listing :
    (cliRecordCore (str ("u")) psSiteFail).website = some (str ("http://biz.example")) ∧
    processListingCLI (str ("u")) psSiteFail = .dropped ∧
    (serverRecordFull (str ("u")) psSiteFail).email = some [] := by
  refine ⟨by decide, by decide, by decide⟩

/-! ## C5 -/

/-- C5: when the About tab is present and its rendered content contains
the literal phrase `Identified as women-owned`, the CLI record's
`attributes` includes the tag `Women-owned`; when the About panel is
absent the `attributes` key is never assigned, so the record carries no
attribute tags and the extraction completes without error (the step is a
total function and its failures are swallowed by its own catch). -/
theorem c5_attributes :
    ∀ (url : JStr) (ps : PageState),
    (ps.aboutTab = true →
      hasSub (str ("Identified as women-owned")) ps.aboutContent = true →
      str ("Women-owned") ∈ ((cliRecordCore url ps).attributes.getD [])) ∧
    (ps.aboutTab = false → (cliRecordCore url ps).attributes = none) := by
  intro url ps
  constructor
  · intro h1 h2
    simp [cliRecordCore, h1, aboutAttrs, h2]
  · intro h1
    simp [cliRecordCore, h1]

/-- C5 witness: the theorem at a concrete page with the phrase present,
and at a concrete page with no About panel. -/
theorem c5_attributes_witness :
    str ("Women-owned") ∈ ((cliRecordCore [] psAboutWomen).attributes.getD []) ∧
    (cliRecordCore [] psBlank).attributes = none :=
  ⟨(c5_attributes [] psAboutWomen).1 rfl (by decide),
   (c5_attributes [] psBlank).2 rfl⟩

/-! ## C6 -/

theorem harvestGo_length : ∀ (els : List ReviewElem) (acc : List ReviewRecord),
    acc.length < 10 → (harvestGo els acc).length ≤ 10 := by
  intro els
  induction els with
  | nil => intro acc h; exact Nat.le_of_lt (by simpa [harvestGo] using h)
  | cons e rest ih =>
    intro acc h
    unfold harvestGo
    have hlen : (if retainedB (buildReview e) then acc ++ [buildReview e] else acc).length
        ≤ acc.length + 1 := by
      by_cases hr : retainedB (buildReview e) = true
      · simp [hr]
      · simp [hr]
    by_cases h10 :
        10 ≤ (if retainedB (buildReview e) then acc ++ [buildReview e] else acc).length
    · rw [if_pos h10]
      exact le_trans hlen (Nat.succ_le_of_lt h)
    · rw [if_neg h10]
      exact ih _ (Nat.lt_of_not_le h10)

theorem harvestGo_mem : ∀ (els : List ReviewElem) (acc : List ReviewRecord)
    (r : ReviewRecord), r ∈ harvestGo els acc → r ∈ acc ∨ retainedB r = true := by
  intro els
  induction els with
  | nil => intro acc r h; exact Or.inl (by simpa [harvestGo] using h)
  | cons e rest ih =>
    intro acc r h
    unfold harvestGo at h
    have step : ∀ s : ReviewRecord,
        s ∈ (if retainedB (buildReview e) then acc ++ [buildReview e] else acc) →
        s ∈ acc ∨ retainedB s = true := by
      intro s hs
      by_cases hr : retainedB (buildReview e) = true
      · rw [if_pos hr] at hs
        rcases List.mem_append.mp hs with h2 | h2
        · exact Or.inl h2
        · simp only [List.mem_singleton] at h2
          exact Or.inr (h2 ▸ hr)
      · rw [if_neg hr] at hs
        exact Or.inl hs
    by_cases h10 :
        10 ≤ (if retainedB (buildReview e) then acc ++ [buildReview e] else acc).length
    · rw [if_pos h10] at h
      exact step r h
    · rw [if_neg h10] at h
      rcases ih _ r h with h2 | h2
      · exact step r h2
      · exact Or.inr h2

theorem harvestReviews_length (els : List ReviewElem) :
    (harvestReviews els).length ≤ 10 :=
  harvestGo_length els [] (by decide)

theorem harvestReviews_all (els : List ReviewElem) :
    (harvestReviews els).all retainedB = true := by
  rw [List.all_eq_true]
  intro r hr
  rcases harvestGo_mem els [] r hr with h | h
  · cases h
  · exact h

theorem reviewsBlock_reviews_ok (ps : PageState) :
    (reviewsBlock ps).1.length ≤ 10 ∧ (reviewsBlock ps).1.all retainedB = true := by
  unfold reviewsBlock
  by_cases hb : ps.reviewsTab = true ∧ ps.reviewElems.isEmpty = true
  · rw [if_pos hb]; exact ⟨by decide, by decide⟩
  · rw [if_neg hb]
    by_cases ht : ps.reviewsTab = true
    · simp only [ht, if_true]
      exact ⟨harvestReviews_length _, harvestReviews_all _⟩
    · simp [ht]

/-- C6: every produced record (CLI and server alike) holds at most ten
reviews, and every review it holds passed the retention test
`review.reviewer || review.text || review.rating`, i.e. at least one of
those three fields is assigned and non-empty. -/
theorem c6_reviews_bounded_and_retained :
    ∀ (url : JStr) (ps : PageState),
    (cliRecordCore url ps).reviews.length ≤ 10 ∧
    (cliRecordCore url ps).reviews.all retainedB = true ∧
    (serverRecordFull url ps).reviews.length ≤ 10 ∧
    (serverRecordFull url ps).reviews.all retainedB = true := by
  intro url ps
  have h := reviewsBlock_reviews_ok ps
  exact ⟨h.1, h.2, h.1, h.2⟩

/-! ## C10 -/

/-- C10: a review field whose resolution chain found no element is never
assigned: the key is absent from the record (`none` at the outer level),
not present as an empty string or `null`. -/
theorem c10_unfound_fields_absent :
    ∀ (e : ReviewElem),
    (e.nameDiv = none → e.contribBtn = none → e.contribLink = none →
      (buildReview e).reviewer = none) ∧
    (e.starsSpan = none → (buildReview e).rating = none) ∧
    (e.textSpan = none → e.textDiv = none → (buildReview e).textR = none) ∧
    (e.timeSpan = none → (buildReview e).timeR = none) := by
  intro e
  refine ⟨?_, ?_, ?_, ?_⟩
  · intro h1 h2 h3; simp [buildReview, h1, h2, h3, Option.orElse]
  · intro h1; simp [buildReview, h1]
  · intro h1 h2; simp [buildReview, h1, h2]
  · intro h1; simp [buildReview, h1]

/-- C10 witness: the theorem at the review element on which every
selector fails. -/
theorem c10_unfound_fields_absent_witness :
    (buildReview revElemEmpty).reviewer = none ∧
    (buildReview revElemEmpty).rating = none ∧
    (buildReview revElemEmpty).textR = none ∧
    (buildReview revElemEmpty).timeR = none :=
  ⟨(c10_unfound_fields_absent revElemEmpty).1 rfl rfl rfl,
   (c10_unfound_fields_absent revElemEmpty).2.1 rfl,
   (c10_unfound_fields_absent revElemEmpty).2.2.1 rfl rfl,
   (c10_unfound_fields_absent revElemEmpty).2.2.2 rfl⟩

/-! ## C7 -/

theorem nameInsertStep_eq_dedupInsert {acc2 : List JStr} {nm : JStr}
    (hv : validName (jsTrim nm) = true) :
    nameInsertStep acc2 nm = dedupInsert acc2 (jsTrim nm) := by
  unfold nameInsertStep dedupInsert
  unfold validName at hv
  simp only [Bool.and_eq_true, Bool.not_eq_true'] at hv
  by_cases hc : acc2.contains (jsTrim nm) = true
  · have hcond : ¬((!excludeWords.contains (jsTrim nm) && !(jsTrim nm).contains '\n' &&
        !acc2.contains (jsTrim nm)) = true) := by
      rw [hv.1, hv.2, hc]; decide
    rw [if_neg hcond, if_pos hc]
  · have hcf : acc2.contains (jsTrim nm) = false := by
      cases hb : acc2.contains (jsTrim nm)
      · rfl
      · exact absurd hb hc
    have hcond : (!excludeWords.contains (jsTrim nm) && !(jsTrim nm).contains '\n' &&
        !acc2.contains (jsTrim nm)) = true := by
      rw [hv.1, hv.2, hcf]; decide
    rw [if_pos hcond, if_neg hc]

theorem nameInsertStep_skip {acc2 : List JStr} {nm : JStr}
    (hv : validName (jsTrim nm) = false) :
    nameInsertStep acc2 nm = acc2 := by
  unfold nameInsertStep
  unfold validName at hv
  rw [if_neg]
  intro hcontra
  simp only [Bool.and_eq_true] at hcontra
  rw [Bool.and_eq_false_iff] at hv
  rcases hv with hv | hv
  · rw [hv] at hcontra; exact Bool.false_ne_true hcontra.1.1
  · rw [hv] at hcontra; exact Bool.false_ne_true hcontra.1.2

theorem foldl_nameInsertStep_eq : ∀ (ns acc : List JStr),
    ns.foldl nameInsertStep acc
      = ((ns.map jsTrim).filter validName).foldl dedupInsert acc := by
  intro ns
  induction ns with
  | nil => intro acc; rfl
  | cons nm rest ih =>
    intro acc
    simp only [List.foldl_cons, List.map_cons, List.filter_cons]
    by_cases hv : validName (jsTrim nm) = true
    · rw [hv, if_pos rfl, List.foldl_cons, nameInsertStep_eq_dedupInsert hv, ih]
    · rw [Bool.not_eq_true] at hv
      rw [hv]
      simp only [Bool.false_eq_true, if_false]
      rw [nameInsertStep_skip hv, ih]

theorem mentionedStep_eq (acc : List JStr) (r : ReviewRecord) :
    mentionedStep acc r = (reviewNames r).foldl dedupInsert acc := by
  unfold mentionedStep reviewNames
  by_cases ht : truthyField r.textR = true
  · rw [if_pos ht, if_pos ht, foldl_nameInsertStep_eq]
  · rw [if_neg ht, if_neg ht]
    rfl

theorem collect_eq_stream_aux : ∀ (revs : List ReviewRecord) (acc : List JStr),
    revs.foldl mentionedStep acc = (nameStream revs).foldl dedupInsert acc := by
  intro revs
  induction revs with
  | nil => intro acc; rfl
  | cons r rest ih =>
    intro acc
    simp only [List.foldl_cons, nameStream, List.map_cons, List.flatten_cons,
      List.foldl_append]
    rw [mentionedStep_eq, ih]
    rfl

theorem collect_eq_stream (revs : List ReviewRecord) :
    collectMentionedNames revs = firstSeenDedup (nameStream revs) :=
  collect_eq_stream_aux revs []

theorem nameStream_valid {revs : List ReviewRecord} {x : JStr}
    (h : x ∈ nameStream revs) : validName x = true := by
  unfold nameStream at h
  rw [List.mem_flatten] at h
  obtain ⟨l, hl, hx⟩ := h
  rw [List.mem_map] at hl
  obtain ⟨r, _, hr⟩ := hl
  subst hr
  unfold reviewNames at hx
  by_cases ht : truthyField r.textR = true
  · rw [if_pos ht] at hx
    exact List.of_mem_filter hx
  · rw [if_neg ht] at hx
    cases hx

theorem reviewsBlock_names_eq (ps : PageState) :
    (reviewsBlock ps).2.2 = firstSeenDedup (nameStream (reviewsBlock ps).1) := by
  unfold reviewsBlock
  by_cases hb : ps.reviewsTab = true ∧ ps.reviewElems.isEmpty = true
  · rw [if_pos hb]; rfl
  · rw [if_neg hb]
    exact collect_eq_stream _

/-- C7: the `mentionedNames` of every produced record is exactly the
first-seen-order deduplication of the filtered name stream over the
retained review texts; it therefore has no duplicates, and it contains no
string case-sensitively equal to an exclusion-set entry.  The CLI record
carries the identical value (the code is shared verbatim). -/
theorem c7_mentioned_names :
    ∀ (url : JStr) (ps : PageState),
    (serverRecordFull url ps).mentionedNames
      = firstSeenDedup (nameStream (serverRecordFull url ps).reviews) ∧
    (serverRecordFull url ps).mentionedNames.Nodup ∧
    excludeWords.all
      (fun w => !(serverRecordFull url ps).mentionedNames.contains w) = true ∧
    (cliRecordCore url ps).mentionedNames
      = (serverRecordFull url ps).mentionedNames := by
  intro url ps
  have heq : (serverRecordFull url ps).mentionedNames
      = firstSeenDedup (nameStream (reviewsBlock ps).1) := reviewsBlock_names_eq ps
  refine ⟨heq, ?_, ?_, rfl⟩
  · rw [heq]; exact firstSeenDedup_nodup _
  · rw [List.all_eq_true]
    intro w hw
    rw [Bool.not_eq_true']
    by_contra hcontra
    rw [Bool.not_eq_false] at hcontra
    have hmem : w ∈ (serverRecordFull url ps).mentionedNames := contains_iff.mp hcontra
    rw [heq] at hmem
    have hstream := mem_firstSeenDedup hmem
    have hv := nameStream_valid hstream
    unfold validName at hv
    simp only [Bool.and_eq_true, Bool.not_eq_true'] at hv
    have hc1 : excludeWords.contains w = true := contains_iff.mpr hw
    rw [hv.1] at hc1
    exact Bool.false_ne_true hc1

/-! ## C8 -/

theorem tryEmailMatch_shaped {cs m rem : JStr} (h : tryEmailMatch cs = some (m, rem)) :
    emailShapedB m = true := by
  simp only [tryEmailMatch] at h
  split at h
  next h1 => cases h
  next h1 =>
    split at h
    next a r hd =>
      split at h
      next ha =>
        split at h
        next hdot =>
          cases h
          subst ha
          have hall : (cs.takeWhile emailChar).all emailChar = true := List.all_takeWhile
          have hsplit : (cs.takeWhile emailChar ++ '@' :: r.takeWhile emailChar).takeWhile
              emailChar = cs.takeWhile emailChar :=
            takeWhile_all_append emailChar (cs.takeWhile emailChar) '@'
              (r.takeWhile emailChar) hall (by decide)
          have hdrop : (cs.takeWhile emailChar ++ '@' :: r.takeWhile emailChar).drop
              (cs.takeWhile emailChar).length = '@' :: r.takeWhile emailChar :=
            List.drop_left _ _
          have h1f : (cs.takeWhile emailChar).isEmpty = false := by
            cases hb : (cs.takeWhile emailChar).isEmpty
            · rfl
            · exact absurd hb h1
          simp only [emailShapedB, hsplit, hdrop, h1f, List.all_takeWhile, hdot,
            List.head?_cons, List.drop_succ_cons, List.drop_zero]
          rfl
        next hdot => cases h
      next ha => cases h
    next hd => cases h

theorem scanEmails_shaped : ∀ (fuel : Nat) (cs : JStr) (m : JStr),
    m ∈ scanEmails fuel cs → emailShapedB m = true := by
  intro fuel
  induction fuel with
  | zero => intro cs m h; cases h
  | succ f ih =>
    intro cs m h
    cases cs with
    | nil => cases h
    | cons c rest =>
      unfold scanEmails at h
      cases he : tryEmailMatch (c :: rest) with
      | some p =>
        obtain ⟨m2, rem2⟩ := p
        rw [he] at h
        cases h with
        | head => exact tryEmailMatch_shaped he
        | tail _ h2 => exact ih _ _ h2
      | none =>
        rw [he] at h
        exact ih _ _ h

theorem emailTokens_ok (content : JStr) :
    (emailTokens content).Nodup ∧
    (emailTokens content).all (fun t => emailShapedB t && junkFree t) = true := by
  constructor
  · exact List.Nodup.filter _ (firstSeenDedup_nodup _)
  · rw [List.all_eq_true]
    intro t ht
    have hjunk : junkFree t = true := List.of_mem_filter ht
    have hmem : t ∈ firstSeenDedup (emailsOf content) := List.mem_of_mem_filter ht
    have hshape : emailShapedB t = true :=
      scanEmails_shaped _ _ _ (mem_firstSeenDedup hmem)
    rw [hshape, hjunk]
    rfl

theorem emailWF_of_content (content : JStr) : emailWF (some (emailField content)) :=
  ⟨emailTokens content, rfl, (emailTokens_ok content).1, (emailTokens_ok content).2⟩

theorem emailWF_empty : emailWF (some []) :=
  ⟨[], rfl, List.nodup_nil, rfl⟩

theorem emailStepServer_email_wf (w : JSVal) (site : Option JStr) :
    emailWF (emailStepServer w site).email := by
  unfold emailStepServer
  by_cases ht : jsTruthy w = true
  · rw [if_pos ht]
    cases site with
    | some content => exact emailWF_of_content content
    | none => exact emailWF_empty
  · rw [if_neg ht]
    exact emailWF_empty

theorem emailStepCLI_email_wf (w : JSVal) (site : Option JStr) :
    emailWF (emailStepCLI w site).email := by
  unfold emailStepCLI
  by_cases ht : jsTruthy w = true
  · rw [if_pos ht]
    cases site with
    | some content => exact emailWF_of_content content
    | none => exact emailWF_empty
  · rw [if_neg ht]
    exact emailWF_empty

/-- C8: the `email` of every produced record is the comma-space join of a
duplicate-free token list in which every token is email-shaped, ends in no
junk extension, and contains no tooling-artifact or placeholder-domain
substring (`junkFree` is the code's filter, which covers the claimed
extension, artifact and placeholder conditions).  The empty email is the
join of the empty token list. -/
theorem c8_email_wellformed :
    ∀ (url : JStr) (ps : PageState),
    emailWF (serverRecordFull url ps).email ∧
    (∀ r, processListingCLI url ps = .retained r → emailWF r.email) := by
  intro url ps
  constructor
  · exact emailStepServer_email_wf _ _
  · intro r hr
    simp only [processListingCLI] at hr
    split at hr
    · cases hr
    · cases hr
      exact emailStepCLI_email_wf _ _

/-- C8 witness: the theorem at a concrete page whose fetched site content
holds a placeholder-domain address and a real one; the CLI pass retains
the record with the placeholder filtered out. -/
theorem c8_email_wellformed_witness :
    emailWF (serverRecordFull (str ("u")) psSiteOk).email ∧ emailWF recSiteOk.email :=
  ⟨(c8_email_wellformed (str ("u")) psSiteOk).1,
   (c8_email_wellformed (str ("u")) psSiteOk).2 recSiteOk (by decide)⟩

/-! ## C9 -/

theorem attr_update_self (r : ListingRecord) (h : r.attributes = none) :
    { r with attributes := none } = r := by
  cases r
  simp_all

theorem cliRecordCore_eq_common {url : JStr} {ps : PageState}
    (h : ps.aboutTab = false) : cliRecordCore url ps = extractCommon url ps := by
  unfold cliRecordCore
  rw [h]
  simp only [Bool.false_eq_true, if_false]
  exact attr_update_self _ rfl

theorem emailStep_agree {w : JSVal} {s : Option JStr}
    (h : (emailStepCLI w s).exc = false) :
    (emailStepCLI w s).email = (emailStepServer w s).email := by
  by_cases ht : jsTruthy w = true
  · cases s with
    | some content => simp [emailStepCLI, emailStepServer, ht]
    | none =>
      exfalso
      have hx : (emailStepCLI w none).exc = true := by simp [emailStepCLI, ht]
      rw [h] at hx
      exact Bool.false_ne_true hx
  · simp [emailStepCLI, emailStepServer, ht]

/-- C9 (amended): the CLI per-listing extraction and the `runScraper`
per-listing extraction agree on every listing whose About tab is absent
and whose email step does not raise (website unresolved or site
navigation successful); they differ exactly where the CLI assigns the
`attributes` field or where an email-step failure drops the CLI listing
while `runScraper` retains it. -/
theorem c9_extracts_agree :
    ∀ (url : JStr) (ps : PageState),
    ps.aboutTab = false →
    (emailStepCLI (extractCommon url ps).website ps.siteContent).exc = false →
    processListingCLI url ps = processListingServer url ps := by
  intro url ps h1 h2
  unfold processListingCLI processListingServer serverRecordFull
  rw [cliRecordCore_eq_common h1]
  rw [if_neg (by rw [h2]; exact Bool.false_ne_true)]
  rw [emailStep_agree h2]

/-- C9 witness: the amended theorem at a page with no About tab and no
website. -/
theorem c9_extracts_agree_witness :
    processListingCLI [] psBlank = processListingServer [] psBlank :=
  c9_extracts_agree [] psBlank rfl (by decide)

/-- C9 counterexample: on a page whose About tab is present with a
women-owned phrase, the CLI record assigns `attributes` while the
`runScraper` record leaves the key absent, so the two per-listing
extractions disagree on an identical rendered page state. -/
theorem c9_counterexample :
    processListingCLI [] psAboutWomen ≠ processListingServer [] psAboutWomen ∧
    (cliRecordCore [] psAboutWomen).attributes = some [str ("Women-owned")] ∧
    (serverRecordFull [] psAboutWomen).attributes = none := by
  refine ⟨by decide, by decide, by decide⟩

end MapsScraper
